import Mathlib

/-!
Shallow embedding of the retrieval-and-extraction pipeline
(`src/` of the rag-spec-extraction repository) and verification of its
specification claims.

Modelling conventions:
* Python strings are `List Char` (ASCII fragment; the repository's own
  string constants and the inputs exercised here are ASCII).
* Python floats are `ℚ` (every arithmetic operation used by the code —
  `+`, `-`, `*`, `/`, `min`, `max` — is exact on the values involved).
* Python dicts (document metadata, dedup maps) are association lists with
  Python's insertion-order semantics: updating an existing key keeps its
  position, a new key is appended.
* External collaborators (the vector store, the generative model, OCR
  rendering/recognition, the langchain recursive splitter) are function
  parameters; the repository's own code is translated directly.
-/

set_option maxRecDepth 10000

/-- Python string type: a list of characters. -/
abbrev Str := List Char

/-- ASCII lowercase conversion of one character (Python `str.lower` on the
ASCII fragment used throughout the repository). -/
def lowerChar (c : Char) : Char :=
  if 'A' ≤ c ∧ c ≤ 'Z' then Char.ofNat (c.toNat + 32) else c

/-- Python `str.lower()`. -/
def pyLower (s : Str) : Str := s.map lowerChar

/-- Python `\s` / `str.strip()` whitespace characters (ASCII fragment). -/
def isPySpace (c : Char) : Bool :=
  c = ' ' ∨ c = '\t' ∨ c = '\n' ∨ c = '\x0d' ∨ c = '\x0c' ∨ c = '\x0b'

/-- Python `str.strip()`: drop leading and trailing whitespace. -/
def pyStrip (s : Str) : Str :=
  ((s.dropWhile isPySpace).reverse.dropWhile isPySpace).reverse

/-- Does `s` start with `p`? (Python `str.startswith` on full strings.) -/
def listStartsWith : Str → Str → Bool
  | _, [] => true
  | [], _ :: _ => false
  | a :: as, b :: bs => a = b && listStartsWith as bs

/-- Python substring containment `needle in hay`. -/
def containsSub (hay needle : Str) : Bool :=
  match hay with
  | [] => needle.isEmpty
  | _ :: t => listStartsWith hay needle || containsSub t needle

/-- Helper for Python `str.split()`: accumulates the current word (reversed). -/
def pySplitAux (cur : Str) : Str → List Str
  | [] => if cur.isEmpty then [] else [cur.reverse]
  | c :: rest =>
    if isPySpace c then
      if cur.isEmpty then pySplitAux [] rest
      else cur.reverse :: pySplitAux [] rest
    else pySplitAux (c :: cur) rest

/-- Python `str.split()` with no argument: split on whitespace runs,
dropping empty fields. -/
def pySplit (s : Str) : List Str := pySplitAux [] s

mutual

/-- Collapse every maximal run of characters satisfying `p` into the single
replacement character `r` (models `re.sub(run-of-p, r, s)`): state while
inside a run whose replacement was already emitted. -/
def collapseAfter (p : Char → Bool) (r : Char) : Str → Str
  | [] => []
  | c :: rest =>
    if p c then collapseAfter p r rest
    else c :: collapseStart p r rest

/-- Collapse every maximal run of characters satisfying `p` into `r`:
state while outside a run. -/
def collapseStart (p : Char → Bool) (r : Char) : Str → Str
  | [] => []
  | c :: rest =>
    if p c then r :: collapseAfter p r rest
    else c :: collapseStart p r rest

end

/-- Python `file_path.split("/")[-1]`: the final path segment. -/
def lastSegment (s : Str) : Str :=
  (s.reverse.takeWhile (fun c => c ≠ '/')).reverse

/-- Metadata values that occur in the pipeline's document metadata dicts:
strings, ints, bools and floats (floats as exact rationals). -/
inductive MVal where
  | s (v : Str)
  | i (v : Int)
  | b (v : Bool)
  | q (v : ℚ)
deriving DecidableEq, Repr

/-- A Python dict with string keys, as an insertion-ordered association list. -/
abbrev Metadata := List (String × MVal)

/-- Python `d.get(k)` (`None` ↦ `none`): value of the key if present. -/
def dictGet (m : Metadata) (k : String) : Option MVal :=
  match m with
  | [] => none
  | (k', v) :: rest => if k' = k then some v else dictGet rest k

/-- Python `d.get(k, default)`. -/
def dictGetD (m : Metadata) (k : String) (d : MVal) : MVal :=
  (dictGet m k).getD d

/-- Python `d[k] = v`: update in place when the key exists (keeping its
position), otherwise append at the end. -/
def dictSet (m : Metadata) (k : String) (v : MVal) : Metadata :=
  match m with
  | [] => [(k, v)]
  | (k', v') :: rest =>
    if k' = k then (k', v) :: rest else (k', v') :: dictSet rest k v

/-- Truthiness of a metadata value (Python `if not original_section`):
empty string, zero, `False` and `0.0` are falsy. -/
def mvalTruthy : MVal → Bool
  | .s v => !v.isEmpty
  | .i v => v ≠ 0
  | .b v => v
  | .q v => v ≠ 0

/-- A langchain `Document`: page content plus a metadata dict. -/
structure Document where
  content : Str
  metadata : Metadata
deriving DecidableEq, Repr

-- ============================ OCR engine ============================
-- src/ocr/ocr_engine.py

/-- Outcome of the per-page render-and-recognize collaborator chain
(`pdf.load_page(idx)` + `get_pixmap` + `Image.frombytes` +
`pytesseract.image_to_string`): either recognized text, or any failure
(`TesseractNotFoundError` or any other exception in the per-page `try`). -/
inductive OcrResult where
  | ok (text : Str)
  | failed
deriving DecidableEq, Repr

/-- OCR text cleanup from `ocr_pages_if_empty`:
`re.sub(r"[ \t]+", " ", raw)` then `re.sub(r"\n{2,}", "\n", ...)` then
`.strip()`. Collapsing every run (also of length 1) of `[ \t]` to one space
and every run of newlines to one newline coincides with the two
substitutions: a single space maps to itself and a single newline is left
alone by `\n{2,}`. -/
def cleanOcr (raw : Str) : Str :=
  pyStrip (collapseStart (fun c => c = '\n') '\n'
    (collapseStart (fun c => c = ' ' ∨ c = '\t') ' ' raw))

/-- The body of the `for idx, doc in enumerate(docs)` loop of
`OCREngine.ocr_pages_if_empty`, for one document at list position `idx`.
`recognize idx` abstracts rendering PDF page number `idx` and running
text recognition on it. `MIN_TEXT_CHARS = 25`. -/
def ocrProcessDoc (recognize : Nat → OcrResult) (file_path : Str)
    (idx : Nat) (doc : Document) : Document :=
  let page_num := dictGetD doc.metadata "page" (.i (idx + 1))
  let text := pyStrip doc.content
  if 25 ≤ text.length then doc
  else
    match recognize idx with
    | .failed => doc
    | .ok raw =>
      let clean_text := cleanOcr raw
      if clean_text.length < 5 then doc
      else
        { content := clean_text
          metadata :=
            [("page", page_num),
             ("section", dictGetD doc.metadata "section" (.s [])),
             ("source", .s file_path),
             ("file_name", .s (lastSegment file_path)),
             ("parser", .s "ocr".data),
             ("ocr", .b true)] }

/-- `OCREngine.ocr_pages_if_empty`: when the PDF cannot be reopened
(`fitz.open` raises, `canOpen = false`) the input is returned unchanged;
otherwise every document is processed by the enumerate loop in order. -/
def ocr_pages_if_empty (recognize : Nat → OcrResult) (canOpen : Bool)
    (file_path : Str) (docs : List Document) : List Document :=
  if canOpen then docs.enum.map (fun p => ocrProcessDoc recognize file_path p.1 p.2)
  else docs

-- ============================ Chunker ============================
-- src/chunking/chunker.py

/-- ASCII letter test (`[A-Za-z]`, and `[A-Z]` under `re.IGNORECASE`). -/
def isAsciiLetter (c : Char) : Bool := ('a' ≤ c ∧ c ≤ 'z') ∨ ('A' ≤ c ∧ c ≤ 'Z')

/-- ASCII digit test (`\d` on ASCII text). -/
def isAsciiDigit (c : Char) : Bool := '0' ≤ c ∧ c ≤ '9'

/-- Attempt to match `SECTION_PATTERN` at the start of `s` and return the
matched text (group 1 is the whole match).  The pattern is
`(SECTION\s+\d{3}(?:[-A-Z0-9]+)?(?:\s*:\s*[A-Za-z0-9 \-]+)?)` with
`re.IGNORECASE`.  Greedy maximal munch is exact here: shortening `\s+`,
`(?:[-A-Z0-9]+)?` or the digit run can never enable a later sub-pattern,
because none of `\s`, `:` or the following classes overlap at the
boundaries. -/
def sectionMatchAt (s : Str) : Option Str :=
  if pyLower (s.take 7) = "section".data ∧ 7 ≤ s.length then
    let r1 := s.drop 7
    let ws := r1.takeWhile isPySpace
    if ws.isEmpty then none
    else
      let r2 := r1.drop ws.length
      if (r2.take 3).length = 3 ∧ (r2.take 3).all isAsciiDigit then
        let r3 := r2.drop 3
        let run1 := r3.takeWhile (fun c => c = '-' ∨ isAsciiLetter c ∨ isAsciiDigit c)
        let r4 := r3.drop run1.length
        let baseLen := 7 + ws.length + 3 + run1.length
        let spA := r4.takeWhile isPySpace
        let r5 := r4.drop spA.length
        match r5 with
        | ':' :: r6 =>
          let spB := r6.takeWhile isPySpace
          let r7 := r6.drop spB.length
          let run2 := r7.takeWhile
            (fun c => isAsciiLetter c ∨ isAsciiDigit c ∨ c = ' ' ∨ c = '-')
          if run2.isEmpty then some (s.take baseLen)
          else some (s.take (baseLen + spA.length + 1 + spB.length + run2.length))
        | _ => some (s.take baseLen)
      else none
  else none

/-- Scan for the leftmost match of `SECTION_PATTERN`
(`SECTION_PATTERN.search(chunk)`). -/
def sectionSearch : Str → Option Str
  | [] => none
  | c :: t =>
    match sectionMatchAt (c :: t) with
    | some m => some m
    | none => sectionSearch t

/-- The chunk loop body of `SpecAwareTextSplitter.split_documents` for one
page: inherit the page metadata, add `chunk_index` / `parent_page` /
`original_section`, re-derive `section` from the header regex only when the
page had no (falsy) section, and trim the chunk text.  `splitText` is the
inherited `RecursiveCharacterTextSplitter.split_text` collaborator
(chunk_size 600, overlap 80). -/
def pageChunks (splitText : Str → List Str) (doc : Document) : List Document :=
  let original_section := dictGetD doc.metadata "section" (.s [])
  let page_num := dictGetD doc.metadata "page" (.s "?".data)
  (splitText doc.content).enum.map (fun p =>
    let md1 := dictSet doc.metadata "chunk_index" (.i p.1)
    let md2 := dictSet md1 "parent_page" page_num
    let md3 := dictSet md2 "original_section" original_section
    let md4 :=
      if mvalTruthy original_section then md3
      else
        match sectionSearch p.2 with
        | some m => dictSet md3 "section" (.s (pyStrip m))
        | none => md3
    { content := pyStrip p.2, metadata := md4 })

/-- `SpecAwareTextSplitter.split_documents`: the per-page chunk lists,
concatenated in page order. -/
def split_documents (splitText : Str → List Str) (docs : List Document) :
    List Document :=
  (docs.map (pageChunks splitText)).flatten

/-- Concrete splitter fixture: one chunk, equal to the page text. -/
def chunkFixtureSplit : Str → List Str := fun s => [s]

/-- Concrete page fixture with a non-empty section whose text would match
the section-header regex if it were (wrongly) applied. -/
def chunkFixtureDoc : Document :=
  ⟨"SECTION 123: X".data, [("section", .s "MYSEC".data), ("page", .i 4)]⟩

-- ================= number-plus-unit regex machinery =================
-- Shared by query_classifier.SPEC_PATTERN and reranker.SPEC_NUMBER_PATTERNS.

/-- Python regex `\w` on ASCII text. -/
def isWordChar (c : Char) : Bool := isAsciiLetter c ∨ isAsciiDigit c ∨ c = '_'

/-- Fraction handling of a number-plus-unit pattern: `\d+` alone,
`\d+(\.\d+)?`, or `\d+\.\d+`. -/
inductive FracMode where
  | noFrac
  | optionalFrac
  | requiredFrac

/-- Does one of the `units` alternatives match at the start of `s`, followed
by a `\b` boundary?  `ci` selects `re.IGNORECASE` (unit alternatives are
given lowercase).  Alternation with a trailing `\b` backtracks through the
alternatives, so existence over the list is exact. -/
def unitMatches (ci : Bool) (units : List Str) (s : Str) : Bool :=
  units.any (fun u =>
    let cand := s.take u.length
    decide (cand.length = u.length) &&
    decide ((if ci then pyLower cand else cand) = u) &&
    (match s.drop u.length with
     | [] => true
     | c :: _ => !isWordChar c))

/-- Match `\d+ <frac> \s* (units) \b` at the start of `s`.  Greedy maximal
munch is exact for these patterns: digits cannot start a unit, whitespace
cannot start a unit, and `.` is in no character class, so no backtracking
into `\d+`, the fraction or `\s*` can ever enable the unit alternatives. -/
def matchNumUnitHere (fm : FracMode) (ci : Bool) (units : List Str)
    (s : Str) : Bool :=
  let ds := s.takeWhile isAsciiDigit
  if ds.isEmpty then false
  else
    let r1 := s.drop ds.length
    let r2 : Option Str :=
      match fm with
      | .noFrac => some r1
      | .requiredFrac =>
        match r1 with
        | '.' :: r =>
          let ds2 := r.takeWhile isAsciiDigit
          if ds2.isEmpty then none else some (r.drop ds2.length)
        | _ => none
      | .optionalFrac =>
        match r1 with
        | '.' :: r =>
          let ds2 := r.takeWhile isAsciiDigit
          if ds2.isEmpty then some r1 else some (r.drop ds2.length)
        | _ => some r1
    match r2 with
    | none => false
    | some r2v =>
      let r3 := r2v.drop (r2v.takeWhile isPySpace).length
      unitMatches ci units r3

/-- Leading `\b` of the patterns: the next character is a digit (word
character), so the boundary holds iff the previous character is absent or
not a word character. -/
def boundaryBefore : Option Char → Bool
  | none => true
  | some p => !isWordChar p

/-- Python `re.search` for a `\b\d+ <frac> \s* (units) \b` pattern: try every
position left to right, tracking the previous character for `\b`. -/
def numUnitSearch (fm : FracMode) (ci : Bool) (units : List Str) :
    Option Char → Str → Bool
  | _, [] => false
  | prev, c :: rest =>
    (boundaryBefore prev && matchNumUnitHere fm ci units (c :: rest)) ||
      numUnitSearch fm ci units (some c) rest

-- ========================= QueryClassifier =========================
-- src/pipeline/query_classifier.py

/-- The `QueryType` enumeration. -/
inductive QueryType where
  | SPEC
  | GENERAL
deriving DecidableEq, Repr

/-- The `.value` string of a `QueryType` member. -/
def queryTypeValue : QueryType → Str
  | .SPEC => "spec".data
  | .GENERAL => "general".data

/-- `SPEC_KEYWORDS` of query_classifier.py (high-precision specification
indicators). -/
def CLASSIFIER_SPEC_KEYWORDS : List Str :=
  ["torque".data, "tighten".data, "tightening".data, "bolt".data, "nut".data,
   "screw".data, "clearance".data, "gap".data, "stroke".data, "play".data,
   "pressure".data, "psi".data, "bar".data, "capacity".data, "volume".data,
   "oil".data, "fuel".data, "coolant".data, "level".data, "dimension".data,
   "length".data, "width".data, "height".data, "thickness".data, "rpm".data,
   "speed".data, "voltage".data, "current".data, "amp".data, "amps".data,
   "watt".data, "power".data, "resistance".data, "ohm".data]

/-- `SPEC_PATTERN.search(q)`:
`\b\d+(\.\d+)?\s*(nm|ft|lb|psi|mm|cm|inch|in|amp|ohm|bar|kg)\b` with
`re.IGNORECASE`. -/
def SPEC_PATTERN_search (q : Str) : Bool :=
  numUnitSearch .optionalFrac true
    ["nm".data, "ft".data, "lb".data, "psi".data, "mm".data, "cm".data,
     "inch".data, "in".data, "amp".data, "ohm".data, "bar".data, "kg".data]
    none q

/-- `classify_query_llm`: the Gemini fallback.  Its collaborator response is
a parameter: `none` models a raised transport error (caught, → GENERAL);
`some t` models `response.text`, classified SPEC iff `"spec"` occurs in the
stripped lowercase text. -/
def classify_query_llm (resp : Option Str) : QueryType :=
  match resp with
  | none => .GENERAL
  | some t =>
    if containsSub (pyLower (pyStrip t)) "spec".data then .SPEC else .GENERAL

/-- `classify_query`: keyword rule, then numeric-unit regex, then the
generative-model fallback. -/
def classify_query (llmResp : Option Str) (query : Str) : QueryType :=
  let q := pyLower query
  if CLASSIFIER_SPEC_KEYWORDS.any (fun kw => containsSub q kw) then .SPEC
  else if SPEC_PATTERN_search q then .SPEC
  else classify_query_llm llmResp

-- ========================= Retriever =========================
-- src/retrieval/retriever.py

/-- `SPEC_KEYWORDS` of retriever.py (keywords boosting retrieval). -/
def RETRIEVER_SPEC_KEYWORDS : List Str :=
  ["torque".data, "tighten".data, "nut".data, "bolt".data, "caliper".data,
   "hose".data, "psi".data, "capacity".data, "fluid".data, "oil".data,
   "grease".data, "disc".data, "pad".data, "brake".data, "shock".data,
   "damper".data]

/-- `SpecRetriever.keyword_score`: +0.3 per vocabulary hit in the chunk,
+0.5 more when the term is also in the query, +0.1 per query token longer
than 3 characters found in the chunk; clamped to 2.0. -/
def keyword_score (text query : Str) : ℚ :=
  let t := pyLower text
  let q := pyLower query
  let score1 := RETRIEVER_SPEC_KEYWORDS.foldl (fun sc kw =>
    let sc1 := if containsSub t kw then sc + 3/10 else sc
    if containsSub q kw ∧ containsSub t kw then sc1 + 5/10 else sc1) 0
  let score2 := (pySplit q).foldl (fun sc token =>
    if 3 < token.length ∧ containsSub t token then sc + 1/10 else sc) score1
  min score2 2

/-- Python `max(all_scores) if all_scores else 1`. -/
def listMax : List ℚ → ℚ
  | [] => 1
  | x :: xs => xs.foldl max x

/-- Python `min(all_scores) if all_scores else 0`. -/
def listMin : List ℚ → ℚ
  | [] => 0
  | x :: xs => xs.foldl min x

/-- The body of the `for doc, distance in results` loop of
`SpecRetriever.retrieve`: annotate one scored document with the normalized
similarity, the keyword score and the combined retrieval score. -/
def annotateDoc (min_s range_s : ℚ) (query : Str) (r : Document × ℚ) :
    Document :=
  let distance := r.2
  let faiss_sim := 1 - ((distance - min_s) / range_s)
  let kw := keyword_score r.1.content query
  let hybrid_raw := faiss_sim + kw
  { r.1 with
    metadata :=
      dictSet (dictSet (dictSet (dictSet (dictSet r.1.metadata
        "faiss_distance" (.q distance))
        "faiss_similarity" (.q faiss_sim))
        "keyword_score" (.q kw))
        "retrieval_score" (.q hybrid_raw))
        "retrieval_type" (.s "hybrid".data) }

/-- The normalization-and-annotation part of `SpecRetriever.retrieve`, after
the vector-store call returned `results`: min–max scale the distances within
this result set (`range_s = (max_s - min_s) or 1`) and annotate each
candidate in order. -/
def retrieveCore (results : List (Document × ℚ)) (query : Str) :
    List Document :=
  let all_scores := results.map (fun r => r.2)
  let max_s := listMax all_scores
  let min_s := listMin all_scores
  let range_s := if max_s - min_s = 0 then 1 else max_s - min_s
  results.map (annotateDoc min_s range_s query)

/-- `SpecRetriever.retrieve`: returns `[]` when the vector-store call raises
(`searchResult = none`), otherwise normalizes and annotates the result
set. -/
def retrieve (searchResult : Option (List (Document × ℚ))) (query : Str) :
    List Document :=
  match searchResult with
  | none => []
  | some results => retrieveCore results query

-- ========================= Reranker =========================
-- src/retrieval/reranker.py

/-- `contains_real_spec`: the text is lowercased, then each of the three
`SPEC_NUMBER_PATTERNS` is searched (no `re.IGNORECASE`, so the `Nm` and
`N·m` alternatives of the first pattern can never match the lowercased
text — they are kept verbatim for fidelity):
`\b\d+\s*(Nm|N·m|lb-ft|ft-lb|in-lb|psi|bar)\b`,
`\b\d+\.\d+\s*(mm|cm|inch|in)\b`, `\b\d+\s*(mm|cm|inch|in)\b`. -/
def contains_real_spec (text : Str) : Bool :=
  let t := pyLower text
  numUnitSearch .noFrac false
    ["Nm".data, "N·m".data, "lb-ft".data, "ft-lb".data, "in-lb".data,
     "psi".data, "bar".data] none t ||
  numUnitSearch .requiredFrac false
    ["mm".data, "cm".data, "inch".data, "in".data] none t ||
  numUnitSearch .noFrac false
    ["mm".data, "cm".data, "inch".data, "in".data] none t

/-- The domain-keyword list local to `score_document`. -/
def RERANKER_KEYWORDS : List Str :=
  ["torque".data, "bolt".data, "caliper".data, "rear".data, "front".data,
   "specification".data]

/-- The unclamped boost accumulation of `score_document`, on the lowercased
chunk text and query: +1.2 for a real numeric spec, +0.1 per domain keyword
in the text, +0.15 per query token longer than 3 characters found in the
text. -/
def rerankBoost (text q : Str) : ℚ :=
  let boost1 : ℚ := if contains_real_spec text then 0 + 12/10 else 0
  let boost2 := RERANKER_KEYWORDS.foldl
    (fun b k => if containsSub text k then b + 1/10 else b) boost1
  (pySplit q).foldl
    (fun b token => if 3 < token.length ∧ containsSub text token then b + 15/100 else b)
    boost2

/-- `score_document`: hybrid rerank score
`0.7 * (1 / (1 + metadata.get("score", 1.0))) + 0.3 * min(boost, 2.0)`.
`float()` of the looked-up value: numeric values pass through, booleans
become 0/1, and a missing key yields the 1.0 default (a string value would
raise in Python and never occurs in the pipeline, whose retrieval metadata
carries no "score" key at all). -/
def score_document (doc : Document) (query : Str) : ℚ :=
  let text := pyLower doc.content
  let q := pyLower query
  let semantic_score : ℚ :=
    match dictGet doc.metadata "score" with
    | some (.q v) => v
    | some (.i v) => (v : ℚ)
    | some (.b v) => if v then 1 else 0
    | _ => 1
  let semantic_sim := 1 / (1 + semantic_score)
  let boost := min (rerankBoost text q) 2
  7/10 * semantic_sim + 3/10 * boost

/-- The hybrid score a document carries after reranking
(`d.metadata["hybrid_score"]`; the key is always present on reranked
documents, the 0 default is unreachable). -/
def getHybrid (d : Document) : ℚ :=
  match dictGet d.metadata "hybrid_score" with
  | some (.q v) => v
  | _ => 0

/-- Stable descending insertion for `sorted(docs, key=hybrid_score,
reverse=True)`: an element goes before the first later element with a
strictly smaller or equal-and-later score. -/
def insertByScore (x : Document) : List Document → List Document
  | [] => [x]
  | y :: ys =>
    if getHybrid y ≤ getHybrid x then x :: y :: ys else y :: insertByScore x ys

/-- Stable descending sort by `hybrid_score`.  Python's `sorted` with
`reverse=True` is stable, and a stable sort's output is uniquely determined
by the key order, so this insertion sort computes exactly it. -/
def sortByScoreDesc : List Document → List Document
  | [] => []
  | x :: xs => insertByScore x (sortByScoreDesc xs)

/-- `rerank_documents`: store `score_document` under `hybrid_score` on every
candidate, then stably sort descending by that score. -/
def rerank_documents (docs : List Document) (query : Str) : List Document :=
  sortByScoreDesc (docs.map (fun d =>
    Document.mk d.content
      (dictSet d.metadata "hybrid_score" (.q (score_document d query)))))

-- ========================= ExtractionEngine =========================
-- src/pipeline/extraction_llm.py

/-- The `SpecItem` pydantic model: `unit` defaults to `""`, `page` and
`raw_text` default to `None`. -/
structure SpecItem where
  component : Str
  value : Str
  unit : Str
  page : Option Int
  raw_text : Option Str
deriving DecidableEq, Repr, Inhabited

/-- JSON values, as produced by `json.loads` / consumed by pydantic.
Numbers are modelled on the integer fragment, the only numeric shape the
SpecItem schema consumes (`page`). -/
inductive Json where
  | null
  | bool (b : Bool)
  | num (n : Int)
  | str (s : Str)
  | arr (xs : List Json)
  | obj (fields : List (Str × Json))

/-- JSON whitespace accepted between tokens by `json.loads`. -/
def jsonWs (c : Char) : Bool :=
  c = ' ' ∨ c = '\t' ∨ c = '\n' ∨ c = '\x0d'

/-- Parse the body of a JSON string after the opening quote, with the
escape sequences the model's outputs use; returns the decoded characters
and the remainder after the closing quote. -/
def parseStringBody : Str → Option (Str × Str)
  | [] => none
  | '"' :: rest => some ([], rest)
  | '\\' :: e :: rest =>
    let dec : Option Char :=
      if e = '"' then some '"'
      else if e = '\\' then some '\\'
      else if e = '/' then some '/'
      else if e = 'n' then some '\n'
      else if e = 't' then some '\t'
      else if e = 'r' then some '\x0d'
      else none
    match dec with
    | none => none
    | some c => (parseStringBody rest).map (fun p => (c :: p.1, p.2))
  | c :: rest => (parseStringBody rest).map (fun p => (c :: p.1, p.2))

/-- Digits to a natural number value. -/
def digitsToNat (ds : Str) : Nat :=
  ds.foldl (fun n c => n * 10 + (c.toNat - '0'.toNat)) 0

/-- Parse a JSON integer numeral (optional minus, digits; fractional or
exponent continuations are outside the modelled fragment and rejected). -/
def parseNumber (s : Str) : Option (Json × Str) :=
  let core : Str → Option (Nat × Str) := fun t =>
    let ds := t.takeWhile isAsciiDigit
    if ds.isEmpty then none
    else
      let rest := t.drop ds.length
      match rest with
      | '.' :: _ => none
      | 'e' :: _ => none
      | 'E' :: _ => none
      | _ => some (digitsToNat ds, rest)
  match s with
  | '-' :: t => (core t).map (fun p => (Json.num (-(p.1 : Int)), p.2))
  | _ => (core s).map (fun p => (Json.num (p.1 : Int), p.2))

mutual

/-- Fuel-indexed JSON value parser (`json.loads` grammar on the modelled
fragment).  Leading whitespace is skipped; the remainder is returned. -/
def parseValue : Nat → Str → Option (Json × Str)
  | 0, _ => none
  | Nat.succ fuel, s =>
    let s1 := s.dropWhile jsonWs
    match s1 with
    | [] => none
    | '"' :: rest => (parseStringBody rest).map (fun p => (Json.str p.1, p.2))
    | '[' :: rest =>
      let s2 := rest.dropWhile jsonWs
      (match s2 with
       | ']' :: r => some (Json.arr [], r)
       | _ => parseArrayItems fuel rest [])
    | '\x7b' :: rest =>
      let s2 := rest.dropWhile jsonWs
      (match s2 with
       | '\x7d' :: r => some (Json.obj [], r)
       | _ => parseObjItems fuel rest [])
    | c :: _ =>
      if listStartsWith s1 "null".data then some (Json.null, s1.drop 4)
      else if listStartsWith s1 "true".data then some (Json.bool true, s1.drop 4)
      else if listStartsWith s1 "false".data then some (Json.bool false, s1.drop 5)
      else if c = '-' ∨ isAsciiDigit c then parseNumber s1
      else none

/-- Parse the comma-separated items of a JSON array (at least one item),
accumulating in reverse. -/
def parseArrayItems : Nat → Str → List Json → Option (Json × Str)
  | 0, _, _ => none
  | Nat.succ fuel, s, acc =>
    match parseValue fuel s with
    | none => none
    | some (v, s2) =>
      let s3 := s2.dropWhile jsonWs
      match s3 with
      | ',' :: r => parseArrayItems fuel r (v :: acc)
      | ']' :: r => some (Json.arr (v :: acc).reverse, r)
      | _ => none

/-- Parse the comma-separated `"key": value` members of a JSON object
(at least one member), accumulating in reverse. -/
def parseObjItems : Nat → Str → List (Str × Json) → Option (Json × Str)
  | 0, _, _ => none
  | Nat.succ fuel, s, acc =>
    let s1 := s.dropWhile jsonWs
    match s1 with
    | '"' :: rest =>
      match parseStringBody rest with
      | none => none
      | some (key, s2) =>
        let s3 := s2.dropWhile jsonWs
        match s3 with
        | ':' :: s4 =>
          match parseValue fuel s4 with
          | none => none
          | some (v, s5) =>
            let s6 := s5.dropWhile jsonWs
            (match s6 with
             | ',' :: r => parseObjItems fuel r ((key, v) :: acc)
             | '\x7d' :: r => some (Json.obj ((key, v) :: acc).reverse, r)
             | _ => none)
        | _ => none
    | _ => none

end

/-- `json.loads`: parse one JSON document, requiring only whitespace after
it. -/
def parseJson (s : Str) : Option Json :=
  match parseValue (s.length + 1) s with
  | some (j, rest) => if (rest.dropWhile jsonWs).isEmpty then some j else none
  | none => none

/-- Duplicate object keys: `json.loads` keeps the last occurrence. -/
def fieldLast (fields : List (Str × Json)) (k : Str) : Option Json :=
  (fields.reverse.find? (fun p => decide (p.1 = k))).map (fun p => p.2)

/-- pydantic validation of one `SpecItem` object: `component` and `value`
are required strings, `unit` an optional string defaulting to `""`, `page`
an optional integer-or-null, `raw_text` an optional string-or-null; extra
keys are ignored. -/
def validateSpecItem (j : Json) : Option SpecItem :=
  match j with
  | .obj fields =>
    match fieldLast fields "component".data, fieldLast fields "value".data with
    | some (.str c), some (.str v) =>
      let unitRes : Option Str :=
        match fieldLast fields "unit".data with
        | none => some []
        | some (.str u) => some u
        | some _ => none
      let pageRes : Option (Option Int) :=
        match fieldLast fields "page".data with
        | none => some none
        | some .null => some none
        | some (.num n) => some (some n)
        | some _ => none
      let rawRes : Option (Option Str) :=
        match fieldLast fields "raw_text".data with
        | none => some none
        | some .null => some none
        | some (.str s) => some (some s)
        | some _ => none
      match unitRes, pageRes, rawRes with
      | some u, some pg, some rw => some ⟨c, v, u, pg, rw⟩
      | _, _, _ => none
    | _, _ => none
  | _ => none

/-- pydantic validation of the `SpecList` model: an object whose `specs`
member is an array of valid `SpecItem`s (extra keys ignored). -/
def validateSpecList (j : Json) : Option (List SpecItem) :=
  match j with
  | .obj fields =>
    match fieldLast fields "specs".data with
    | some (.arr xs) => xs.mapM validateSpecItem
    | _ => none
  | _ => none

/-- `SpecList.model_validate_json`: parse then validate (pydantic wraps
JSON syntax errors and schema errors alike in `ValidationError`, modelled
as `none`). -/
def model_validate_json (s : Str) : Option (List SpecItem) :=
  (parseJson s).bind validateSpecList

/-- `_extract_json_block`: `re.search(r"\x7b[\s\S]*\x7d", raw)` — greedy,
i.e. from the first opening brace to the last closing brace after it —
then the same for `\[[\s\S]*\]`, then `None`. -/
def extract_json_block (raw : Str) : Option Str :=
  let sObj := raw.dropWhile (fun c => c ≠ '\x7b')
  let objM := (sObj.reverse.dropWhile (fun c => c ≠ '\x7d')).reverse
  if !objM.isEmpty then some objM
  else
    let sArr := raw.dropWhile (fun c => c ≠ '[')
    let arrM := (sArr.reverse.dropWhile (fun c => c ≠ ']')).reverse
    if !arrM.isEmpty then some arrM
    else none

/-- `extract_specs(query, context, query_type)`: the generative-model
response is a parameter (`none` models an exception from the transport /
`response.text`; the prompt only feeds that collaborator).  Every failure
path returns `[]`: direct validation, then block extraction, bare-array
wrapping (`json.dumps` of the wrapped dict followed by re-validation is
collapsed to validating the wrapped value), final validation; exceptions
escaping any step are caught by the surrounding `except` and yield `[]`. -/
def extract_specs (resp : Option Str) : List SpecItem :=
  match resp with
  | none => []
  | some rawResp =>
    let raw_text := pyStrip rawResp
    match model_validate_json raw_text with
    | some specs => specs
    | none =>
      match extract_json_block raw_text with
      | none => []
      | some json_block =>
        let stripped := pyStrip json_block
        if (match stripped with | '[' :: _ => true | _ => false) &&
            (match stripped.getLast? with | some ']' => true | _ => false) then
          match parseJson stripped with
          | none => []
          | some jv =>
            match validateSpecList (Json.obj [("specs".data, jv)]) with
            | some specs => specs
            | none => []
        else
          match model_validate_json json_block with
          | some specs => specs
          | none => []

-- ========================= QueryProcessor =========================
-- src/pipeline/query_processor.py

/-- The case-insensitive dedup key of `answer_query`:
`(s.component.lower(), s.value.lower(), s.unit.lower())`. -/
def specKey (s : SpecItem) : Str × Str × Str :=
  (pyLower s.component, pyLower s.value, pyLower s.unit)

/-- The `unique` dict of `answer_query`, keyed by the dedup triple. -/
abbrev DedupMap := List ((Str × Str × Str) × SpecItem)

/-- Lookup in the dedup dict. -/
def dedupGet (m : DedupMap) (k : Str × Str × Str) : Option SpecItem :=
  match m with
  | [] => none
  | (k', v) :: rest => if k' = k then some v else dedupGet rest k

/-- `unique[key] = s`: update in place keeping the key's position, else
append. -/
def dedupSet (m : DedupMap) (k : Str × Str × Str) (v : SpecItem) : DedupMap :=
  match m with
  | [] => [(k, v)]
  | (k', v') :: rest =>
    if k' = k then (k', v) :: rest else (k', v') :: dedupSet rest k v

/-- The dedup loop of `answer_query` (step 6): insert every spec under its
case-insensitive key, then take `list(unique.values())`. -/
def dedup_specs (specs : List SpecItem) : List SpecItem :=
  (specs.foldl (fun m s => dedupSet m (specKey s) s) []).map (fun p => p.2)

/-- The distinguishable condition `answer_query` raises:
`RuntimeError("Vectorstore not initialized. Build or load index first.")`. -/
inductive PipelineError where
  | vectorstoreNotInitialized
deriving DecidableEq, Repr

/-- The collaborator outcomes one `answer_query` run can observe: the
classifier's generative-model response, the vector-store search result
(`none` models a raised search exception), and the extraction model's
response (`none` models a raised transport error). -/
structure AnswerEnv where
  classifyResp : Option Str
  searchResult : Option (List (Document × ℚ))
  extractResp : Option Str

/-- `QueryProcessor.answer_query`: raise if no vectorstore is set, else
classify → retrieve top 15 → rerank → take top 6 → extract → dedup.  The
context string assembled in step 4 only feeds the prompt of the generative
collaborator — whose response is already the `extractResp` parameter — and
the `last_context` UI debug field, so it does not appear in the returned
value and is omitted; logging likewise. -/
def answer_query (env : AnswerEnv) (vectorstore : Option Unit)
    (query : Str) : Except PipelineError (List SpecItem) :=
  match vectorstore with
  | none => .error .vectorstoreNotInitialized
  | some _ =>
    let query_type := classify_query env.classifyResp query
    let initial_docs := retrieve env.searchResult query
    let ranked_docs := rerank_documents initial_docs query
    let final_docs := ranked_docs.take 6
    let specs := extract_specs env.extractResp
    .ok (dedup_specs specs)

-- ===================== basic lemmas on the dict model =====================

theorem dictGet_dictSet_self (m : Metadata) (k : String) (v : MVal) :
    dictGet (dictSet m k v) k = some v := by
  induction m with
  | nil => simp [dictSet, dictGet]
  | cons hd tl ih =>
    obtain ⟨k', v'⟩ := hd
    by_cases h : k' = k <;> simp [dictSet, dictGet, h, ih]

theorem dictGet_dictSet_ne (m : Metadata) (k k' : String) (v : MVal)
    (h : k ≠ k') : dictGet (dictSet m k v) k' = dictGet m k' := by
  induction m with
  | nil => simp [dictSet, dictGet, h]
  | cons hd tl ih =>
    obtain ⟨k₀, v₀⟩ := hd
    by_cases h0 : k₀ = k
    · subst h0
      simp [dictSet, dictGet, h]
    · by_cases h1 : k₀ = k' <;> simp [dictSet, dictGet, h0, h1, ih, Ne.symm h]

-- ===================== OCR stage lemmas and claims =====================

theorem ocr_pages_if_empty_getElem (recognize : Nat → OcrResult) (fp : Str)
    (docs : List Document) (i : Nat) (h : i < docs.length) :
    (ocr_pages_if_empty recognize true fp docs)[i]? =
      some (ocrProcessDoc recognize fp i docs[i]) := by
  simp [ocr_pages_if_empty, List.getElem?_map, List.getElem?_enum,
    List.getElem?_eq_getElem, h]

/-- C5 (amended): for every page whose whitespace-stripped text length is at
least 25 characters, the OCR fallback stage returns that page unchanged —
content and metadata identical to the input — whether or not the PDF could
be reopened. -/
theorem ocr_keeps_pages_with_long_stripped_text
    (recognize : Nat → OcrResult) (canOpen : Bool) (fp : Str)
    (docs : List Document) (i : Nat) (h : i < docs.length)
    (hlong : 25 ≤ (pyStrip docs[i].content).length) :
    (ocr_pages_if_empty recognize canOpen fp docs)[i]? = some docs[i] := by
  cases canOpen with
  | false => simp [ocr_pages_if_empty, List.getElem?_eq_getElem, h]
  | true =>
    simp [ocr_pages_if_empty, List.getElem?_map, List.getElem?_enum,
      List.getElem?_eq_getElem, h, ocrProcessDoc, hlong]

theorem ocr_keeps_pages_with_long_stripped_text_witness :
    25 ≤ (pyStrip "ABCDEFGHIJKLMNOPQRSTUVWXY".data).length ∧
    (ocr_pages_if_empty (fun _ => OcrResult.ok "NEW".data) true "m.pdf".data
        [⟨"ABCDEFGHIJKLMNOPQRSTUVWXY".data, []⟩])[0]? =
      some ⟨"ABCDEFGHIJKLMNOPQRSTUVWXY".data, []⟩ :=
  ⟨by decide,
   ocr_keeps_pages_with_long_stripped_text _ true _ _ 0 (by decide) (by decide)⟩

/-- C5 (counterexample): a page whose raw content length is exactly 25 (all
spaces) is not returned unchanged — the code thresholds the *stripped*
length (0 here), so OCR runs and replaces the page when recognition yields
at least 5 cleaned characters. -/
theorem ocr_raw_length_25_page_changed_cex :
    25 ≤ ((List.replicate 25 ' ' : Str).length) ∧
    ocr_pages_if_empty (fun _ => OcrResult.ok "RECOGNIZED PAGE TEXT".data)
        true "m.pdf".data [⟨List.replicate 25 ' ', [("page", .i 1)]⟩] ≠
      [⟨List.replicate 25 ' ', [("page", .i 1)]⟩] := by
  constructor
  · decide
  · decide

/-- C6: for every page with stripped text length below 25 on which text
recognition succeeds, if the cleaned recognized text has at least 5
characters the page's content is replaced by it with metadata
`parser = "ocr"` and `ocr = true`, and if it is shorter than 5 characters
the original page is kept unchanged. -/
theorem ocr_short_page_replacement
    (recognize : Nat → OcrResult) (fp : Str) (docs : List Document)
    (i : Nat) (h : i < docs.length) (raw : Str)
    (hshort : (pyStrip docs[i].content).length < 25)
    (hok : recognize i = .ok raw) :
    (5 ≤ (cleanOcr raw).length →
      ∃ d, (ocr_pages_if_empty recognize true fp docs)[i]? = some d ∧
        d.content = cleanOcr raw ∧
        dictGet d.metadata "parser" = some (.s "ocr".data) ∧
        dictGet d.metadata "ocr" = some (.b true)) ∧
    ((cleanOcr raw).length < 5 →
      (ocr_pages_if_empty recognize true fp docs)[i]? = some docs[i]) := by
  have hout := ocr_pages_if_empty_getElem recognize fp docs i h
  have hnl : ¬ 25 ≤ (pyStrip docs[i].content).length := Nat.not_le.mpr hshort
  constructor
  · intro hlen
    refine ⟨ocrProcessDoc recognize fp i docs[i], hout, ?_⟩
    rw [ocrProcessDoc]
    simp only [hnl, if_false, hok, Nat.not_lt.mpr hlen, if_neg (Nat.not_lt.mpr hlen)]
    refine ⟨?_, ?_, ?_⟩ <;> trivial
  · intro hlt
    rw [hout, ocrProcessDoc]
    simp only [hnl, if_false, hok, if_pos hlt]

theorem ocr_short_page_replacement_witness :
    (5 ≤ (cleanOcr "HELLO WORLD".data).length →
      ∃ d, (ocr_pages_if_empty (fun _ => OcrResult.ok "HELLO WORLD".data)
          true "m.pdf".data [⟨"ab".data, []⟩])[0]? = some d ∧
        d.content = cleanOcr "HELLO WORLD".data ∧
        dictGet d.metadata "parser" = some (.s "ocr".data) ∧
        dictGet d.metadata "ocr" = some (.b true)) ∧
    ((cleanOcr "HELLO WORLD".data).length < 5 →
      (ocr_pages_if_empty (fun _ => OcrResult.ok "HELLO WORLD".data)
          true "m.pdf".data [⟨"ab".data, []⟩])[0]? =
        some (⟨"ab".data, []⟩ : Document)) :=
  ocr_short_page_replacement (fun _ => OcrResult.ok "HELLO WORLD".data)
    "m.pdf".data [⟨"ab".data, []⟩] 0 (by decide) "HELLO WORLD".data
    (by decide) rfl

/-- C10: the OCR fallback selects which PDF page to render by the document's
position in the list — the i-th document is replaced with text recognized
from rendered page i — while the document's own `page` metadata value `p`
(which may name a different page) is merely carried over unchanged. -/
theorem ocr_renders_by_list_position
    (recognize : Nat → OcrResult) (fp : Str) (docs : List Document)
    (i : Nat) (h : i < docs.length) (raw : Str) (p : Int)
    (hpage : dictGet docs[i].metadata "page" = some (.i p))
    (hshort : (pyStrip docs[i].content).length < 25)
    (hok : recognize i = .ok raw)
    (hlen : 5 ≤ (cleanOcr raw).length) :
    ∃ d, (ocr_pages_if_empty recognize true fp docs)[i]? = some d ∧
      d.content = cleanOcr raw ∧
      dictGet d.metadata "page" = some (.i p) := by
  have hout := ocr_pages_if_empty_getElem recognize fp docs i h
  have hnl : ¬ 25 ≤ (pyStrip docs[i].content).length := Nat.not_le.mpr hshort
  refine ⟨ocrProcessDoc recognize fp i docs[i], hout, ?_⟩
  rw [ocrProcessDoc]
  simp only [hnl, if_false, hok, if_neg (Nat.not_lt.mpr hlen)]
  refine ⟨by trivial, ?_⟩
  show some (dictGetD docs[i].metadata "page" (.i (i + 1))) = some (.i p)
  rw [dictGetD, hpage]
  rfl

theorem ocr_renders_by_list_position_witness :
    ∃ d, (ocr_pages_if_empty
        (fun n => OcrResult.ok (if n = 0 then "PAGE ZERO CONTENT".data else "OTHER PAGE".data))
        true "m.pdf".data [⟨"x".data, [("page", MVal.i 5)]⟩])[0]? = some d ∧
      d.content = cleanOcr "PAGE ZERO CONTENT".data ∧
      dictGet d.metadata "page" = some (.i 5) :=
  ocr_renders_by_list_position
    (fun n => OcrResult.ok (if n = 0 then "PAGE ZERO CONTENT".data else "OTHER PAGE".data))
    "m.pdf".data [⟨"x".data, [("page", MVal.i 5)]⟩] 0 (by decide)
    "PAGE ZERO CONTENT".data 5 rfl (by decide) rfl (by decide)

-- ===================== Chunker claims =====================

/-- C7: for every page whose `section` metadata is a non-empty string, every
chunk produced from that page keeps that section unchanged (the header regex
branch is skipped) and carries `original_section` equal to the page's
section; each such chunk is part of the `split_documents` output for any
document list containing the page. -/
theorem chunker_keeps_nonempty_section
    (splitText : Str → List Str) (docs : List Document) (doc : Document)
    (sec : Str) (hdoc : doc ∈ docs)
    (hsec : dictGet doc.metadata "section" = some (.s sec)) (hne : sec ≠ []) :
    ∀ c ∈ pageChunks splitText doc,
      dictGet c.metadata "section" = some (.s sec) ∧
      dictGet c.metadata "original_section" = some (.s sec) ∧
      c ∈ split_documents splitText docs := by
  intro c hc
  have hmem : c ∈ split_documents splitText docs := by
    rw [split_documents]
    exact List.mem_flatten.mpr ⟨pageChunks splitText doc,
      List.mem_map_of_mem (pageChunks splitText) hdoc, hc⟩
  rw [pageChunks] at hc
  simp only [List.mem_map] at hc
  obtain ⟨p, hpmem, hp⟩ := hc
  have hos : dictGetD doc.metadata "section" (.s []) = .s sec := by
    rw [dictGetD, hsec]; rfl
  have htruthy : mvalTruthy (MVal.s sec) = true := by
    simp [mvalTruthy, List.isEmpty_iff, hne]
  subst hp
  refine ⟨?_, ?_, hmem⟩
  · simp only [hos, htruthy, if_true]
    rw [dictGet_dictSet_ne _ _ _ _ (by decide),
      dictGet_dictSet_ne _ _ _ _ (by decide),
      dictGet_dictSet_ne _ _ _ _ (by decide), hsec]
  · simp only [hos, htruthy, if_true]
    rw [dictGet_dictSet_self]

theorem chunker_keeps_nonempty_section_witness :
    dictGet ((pageChunks chunkFixtureSplit chunkFixtureDoc).headD ⟨[], []⟩).metadata
        "section" = some (.s "MYSEC".data) ∧
    dictGet ((pageChunks chunkFixtureSplit chunkFixtureDoc).headD ⟨[], []⟩).metadata
        "original_section" = some (.s "MYSEC".data) ∧
    (pageChunks chunkFixtureSplit chunkFixtureDoc).headD ⟨[], []⟩ ∈
      split_documents chunkFixtureSplit [chunkFixtureDoc] :=
  chunker_keeps_nonempty_section chunkFixtureSplit [chunkFixtureDoc]
    chunkFixtureDoc "MYSEC".data (by decide) rfl (by decide)
    ((pageChunks chunkFixtureSplit chunkFixtureDoc).headD ⟨[], []⟩) (by decide)

-- ===================== QueryClassifier claims =====================

/-- C8: every query containing (case-insensitively) a term of the fixed
specification-keyword vocabulary classifies as SPEC by the first rule tier
alone: the result is SPEC for every possible behaviour of the
generative-model collaborator, so the model's answer is never consulted. -/
theorem classify_keyword_gives_spec_without_model
    (query : Str)
    (hkw : ∃ kw ∈ CLASSIFIER_SPEC_KEYWORDS, containsSub (pyLower query) kw = true) :
    ∀ llmResp : Option Str, classify_query llmResp query = QueryType.SPEC := by
  intro llmResp
  rw [classify_query]
  have hany : CLASSIFIER_SPEC_KEYWORDS.any
      (fun kw => containsSub (pyLower query) kw) = true :=
    List.any_eq_true.mpr hkw
  simp only [hany, if_true]

theorem classify_keyword_gives_spec_without_model_witness :
    classify_query (some "general".data)
      "What is the torque for the rear caliper bolt?".data = QueryType.SPEC :=
  classify_keyword_gives_spec_without_model
    "What is the torque for the rear caliper bolt?".data
    ⟨"torque".data, by decide, by decide⟩ (some "general".data)

-- ===================== Retriever normalization claims =====================

theorem foldl_min_le_acc (xs : List ℚ) : ∀ a : ℚ, xs.foldl min a ≤ a := by
  induction xs with
  | nil => intro a; simp
  | cons x t ih =>
    intro a
    exact le_trans (ih (min a x)) (min_le_left a x)

theorem foldl_min_le_mem (xs : List ℚ) :
    ∀ (a x : ℚ), x ∈ xs → xs.foldl min a ≤ x := by
  induction xs with
  | nil => intro a x hx; cases hx
  | cons y t ih =>
    intro a x hx
    rcases List.mem_cons.mp hx with h | h
    · subst h
      exact le_trans (foldl_min_le_acc t (min a x)) (min_le_right a x)
    · exact ih (min a y) x h

theorem foldl_min_choice (xs : List ℚ) :
    ∀ a : ℚ, xs.foldl min a = a ∨ xs.foldl min a ∈ xs := by
  induction xs with
  | nil => intro a; left; rfl
  | cons x t ih =>
    intro a
    rcases ih (min a x) with h | h
    · rcases min_choice a x with hm | hm
      · left; rw [List.foldl_cons, h, hm]
      · right; rw [List.foldl_cons, h, hm]; exact List.mem_cons_self x t
    · right; exact List.mem_cons_of_mem x h

theorem foldl_max_acc_le (xs : List ℚ) : ∀ a : ℚ, a ≤ xs.foldl max a := by
  induction xs with
  | nil => intro a; simp
  | cons x t ih =>
    intro a
    exact le_trans (le_max_left a x) (ih (max a x))

theorem foldl_max_mem_le (xs : List ℚ) :
    ∀ (a x : ℚ), x ∈ xs → x ≤ xs.foldl max a := by
  induction xs with
  | nil => intro a x hx; cases hx
  | cons y t ih =>
    intro a x hx
    rcases List.mem_cons.mp hx with h | h
    · subst h
      exact le_trans (le_max_right a x) (foldl_max_acc_le t (max a x))
    · exact ih (max a y) x h

theorem foldl_max_choice (xs : List ℚ) :
    ∀ a : ℚ, xs.foldl max a = a ∨ xs.foldl max a ∈ xs := by
  induction xs with
  | nil => intro a; left; rfl
  | cons x t ih =>
    intro a
    rcases ih (max a x) with h | h
    · rcases max_choice a x with hm | hm
      · left; rw [List.foldl_cons, h, hm]
      · right; rw [List.foldl_cons, h, hm]; exact List.mem_cons_self x t
    · right; exact List.mem_cons_of_mem x h

theorem listMin_le (l : List ℚ) (x : ℚ) (hx : x ∈ l) : listMin l ≤ x := by
  cases l with
  | nil => cases hx
  | cons y t =>
    rcases List.mem_cons.mp hx with h | h
    · subst h; exact foldl_min_le_acc t x
    · exact foldl_min_le_mem t y x h

theorem listMin_mem (l : List ℚ) (h : l ≠ []) : listMin l ∈ l := by
  cases l with
  | nil => exact absurd rfl h
  | cons y t =>
    rcases foldl_min_choice t y with hc | hc
    · rw [listMin, hc]; exact List.mem_cons_self y t
    · rw [listMin]; exact List.mem_cons_of_mem y hc

theorem listMax_ge (l : List ℚ) (x : ℚ) (hx : x ∈ l) : x ≤ listMax l := by
  cases l with
  | nil => cases hx
  | cons y t =>
    rcases List.mem_cons.mp hx with h | h
    · subst h; exact foldl_max_acc_le t x
    · exact foldl_max_mem_le t y x h

theorem listMax_mem (l : List ℚ) (h : l ≠ []) : listMax l ∈ l := by
  cases l with
  | nil => exact absurd rfl h
  | cons y t =>
    rcases foldl_max_choice t y with hc | hc
    · rw [listMax, hc]; exact List.mem_cons_self y t
    · rw [listMax]; exact List.mem_cons_of_mem y hc

theorem annotateDoc_faiss_similarity (min_s range_s : ℚ) (query : Str)
    (r : Document × ℚ) :
    dictGet (annotateDoc min_s range_s query r).metadata "faiss_similarity" =
      some (.q (1 - ((r.2 - min_s) / range_s))) := by
  rw [annotateDoc]
  simp only
  rw [dictGet_dictSet_ne _ _ _ _ (by decide),
    dictGet_dictSet_ne _ _ _ _ (by decide),
    dictGet_dictSet_ne _ _ _ _ (by decide),
    dictGet_dictSet_self]

/-- C3: in every non-empty retrieval result set, after min–max normalization
a minimum-distance chunk gets `faiss_similarity = 1`; a maximum-distance
chunk gets `faiss_similarity = 0` whenever two distances differ; and when
all distances are equal every chunk gets `faiss_similarity = 1` (the
denominator is the guarded `(max_s - min_s) or 1`). -/
theorem retrieve_minmax_normalization
    (rs : List (Document × ℚ)) (query : Str) (i : Nat) (hi : i < rs.length) :
    ((∀ p ∈ rs, rs[i].2 ≤ p.2) →
      ∃ d, (retrieveCore rs query)[i]? = some d ∧
        dictGet d.metadata "faiss_similarity" = some (.q 1)) ∧
    ((∃ p ∈ rs, ∃ p' ∈ rs, p.2 ≠ p'.2) → (∀ p ∈ rs, p.2 ≤ rs[i].2) →
      ∃ d, (retrieveCore rs query)[i]? = some d ∧
        dictGet d.metadata "faiss_similarity" = some (.q 0)) ∧
    ((∀ p ∈ rs, ∀ p' ∈ rs, p.2 = p'.2) →
      ∃ d, (retrieveCore rs query)[i]? = some d ∧
        dictGet d.metadata "faiss_similarity" = some (.q 1)) := by
  have hmem : rs[i] ∈ rs := List.getElem_mem hi
  have hdm : rs[i].2 ∈ rs.map (fun r => r.2) := List.mem_map_of_mem _ hmem
  have hne : rs.map (fun r => r.2) ≠ [] := by
    intro h
    rw [List.map_eq_nil_iff] at h
    subst h
    exact absurd hi (by simp)
  have hmap : (retrieveCore rs query)[i]? =
      some (annotateDoc (listMin (rs.map fun r => r.2))
        (if listMax (rs.map fun r => r.2) - listMin (rs.map fun r => r.2) = 0
         then 1
         else listMax (rs.map fun r => r.2) - listMin (rs.map fun r => r.2))
        query rs[i]) := by
    simp [retrieveCore, List.getElem?_map, List.getElem?_eq_getElem, hi]
  refine ⟨?_, ?_, ?_⟩
  · intro h1
    have hminle : listMin (rs.map fun r => r.2) ≤ rs[i].2 :=
      listMin_le _ _ hdm
    have hlemin : rs[i].2 ≤ listMin (rs.map fun r => r.2) := by
      obtain ⟨p, hp, hpe⟩ := List.mem_map.mp (listMin_mem _ hne)
      rw [← hpe]
      exact h1 p hp
    have hmin : listMin (rs.map fun r => r.2) = rs[i].2 :=
      le_antisymm hminle hlemin
    refine ⟨_, hmap, ?_⟩
    rw [annotateDoc_faiss_similarity]
    have hz : rs[i].2 - listMin (rs.map fun r => r.2) = 0 := by
      rw [hmin, sub_self]
    rw [hz, zero_div, sub_zero]
  · intro hdiff h2
    have hmaxge : rs[i].2 ≤ listMax (rs.map fun r => r.2) :=
      listMax_ge _ _ hdm
    have hgemax : listMax (rs.map fun r => r.2) ≤ rs[i].2 := by
      obtain ⟨p, hp, hpe⟩ := List.mem_map.mp (listMax_mem _ hne)
      rw [← hpe]
      exact h2 p hp
    have hmax : listMax (rs.map fun r => r.2) = rs[i].2 :=
      le_antisymm hgemax hmaxge
    have hr : listMax (rs.map fun r => r.2) - listMin (rs.map fun r => r.2) ≠ 0 := by
      intro h0
      obtain ⟨p, hp, p', hp', hppe⟩ := hdiff
      have heqall : ∀ x ∈ rs.map (fun r => r.2), x = listMin (rs.map fun r => r.2) := by
        intro x hx
        have hxle : x ≤ listMax (rs.map fun r => r.2) := listMax_ge _ _ hx
        have hlex : listMin (rs.map fun r => r.2) ≤ x := listMin_le _ _ hx
        have : listMax (rs.map fun r => r.2) = listMin (rs.map fun r => r.2) := by
          linarith
        exact le_antisymm (by linarith) hlex
      have e1 := heqall p.2 (List.mem_map_of_mem _ hp)
      have e2 := heqall p'.2 (List.mem_map_of_mem _ hp')
      exact hppe (e1.trans e2.symm)
    refine ⟨_, hmap, ?_⟩
    rw [annotateDoc_faiss_similarity]
    rw [if_neg hr, ← hmax, div_self hr, sub_self]
  · intro h3
    have hmin : listMin (rs.map fun r => r.2) = rs[i].2 := by
      obtain ⟨p, hp, hpe⟩ := List.mem_map.mp (listMin_mem _ hne)
      rw [← hpe]
      exact h3 p hp rs[i] hmem
    refine ⟨_, hmap, ?_⟩
    rw [annotateDoc_faiss_similarity]
    have hz : rs[i].2 - listMin (rs.map fun r => r.2) = 0 := by
      rw [hmin, sub_self]
    rw [hz, zero_div, sub_zero]

theorem retrieve_minmax_normalization_witness :
    ∃ d, (retrieveCore [(⟨"a".data, []⟩, 1), (⟨"b".data, []⟩, 3)]
        "q".data)[0]? = some d ∧
      dictGet d.metadata "faiss_similarity" = some (.q 1) :=
  (retrieve_minmax_normalization [(⟨"a".data, []⟩, 1), (⟨"b".data, []⟩, 3)]
    "q".data 0 (by decide)).1 (by decide)

-- ===================== Reranker claims =====================

/-- C1 (failing-input evaluation, showing the claim false on the code): a
pipeline candidate whose raw vector-index score is 3 gets
`hybrid_score = 0.7 * (1 / (1 + 1.0)) + 0.3 * 0 = 0.35`, not the claimed
`0.7 * (1 / (1 + 3)) + 0.3 * 0 = 0.175`: `SpecRetriever.retrieve` stores the
raw score under `faiss_distance`, while `score_document` reads the
never-written key `score` and so always falls back to its 1.0 default. -/
theorem reranker_ignores_raw_index_score :
    ∃ d,
      retrieve (some [(⟨"zzzz".data, []⟩, 3)]) "qq".data = [d] ∧
      dictGet d.metadata "faiss_distance" = some (.q 3) ∧
      dictGet d.metadata "score" = none ∧
      score_document d "qq".data = 7/20 ∧
      (7 : ℚ)/20 ≠ 7/10 * (1 / (1 + 3)) + 3/10 * 0 := by
  refine ⟨(retrieve (some [(⟨"zzzz".data, []⟩, 3)]) "qq".data).headD ⟨[], []⟩,
    rfl, rfl, rfl, ?_, by norm_num⟩
  have hred : score_document
      ((retrieve (some [(⟨"zzzz".data, []⟩, 3)]) "qq".data).headD ⟨[], []⟩)
      "qq".data = 7/10 * (1 / (1 + (1 : ℚ))) + 3/10 * min 0 2 := rfl
  rw [hred, min_eq_left (by norm_num : (0 : ℚ) ≤ 2)]
  norm_num

-- ===================== ExtractionEngine claims =====================

/-- C2 (failing-input evaluation, showing the claim false on the code): for
a response that is narrative text whose only JSON content is the bare array
`[{"component":"X","value":"1","unit":""}]`, the greedy object regex of
`_extract_json_block` fires first — an array of spec objects contains
braces — and returns the inner object, which fails `SpecList` validation,
so `extract_specs` returns `[]` instead of recovering the one SpecItem by
wrapping the array. -/
theorem extract_specs_array_recovery_dead :
    extract_specs (some
      "Here are the specs: [\x7b\"component\":\"X\",\"value\":\"1\",\"unit\":\"\"\x7d] hope that helps.".data)
      = [] ∧
    extract_json_block (pyStrip
      "Here are the specs: [\x7b\"component\":\"X\",\"value\":\"1\",\"unit\":\"\"\x7d] hope that helps.".data)
      = some "\x7b\"component\":\"X\",\"value\":\"1\",\"unit\":\"\"\x7d".data := by
  constructor
  · rfl
  · rfl

-- ===================== Deduplication claims =====================

theorem dedupGet_dedupSet (m : DedupMap) (k : Str × Str × Str) (v : SpecItem)
    (k' : Str × Str × Str) :
    dedupGet (dedupSet m k v) k' = if k' = k then some v else dedupGet m k' := by
  induction m with
  | nil =>
    by_cases h : k' = k
    · simp [dedupSet, dedupGet, h]
    · simp [dedupSet, dedupGet, h, Ne.symm h]
  | cons hd tl ih =>
    obtain ⟨k0, v0⟩ := hd
    by_cases h0 : k0 = k
    · subst h0
      by_cases h1 : k' = k0
      · simp [dedupSet, dedupGet, h1]
      · simp [dedupSet, dedupGet, h1, Ne.symm h1]
    · by_cases h1 : k0 = k'
      · subst h1
        simp [dedupSet, dedupGet, h0, Ne.symm h0]
      · simp [dedupSet, dedupGet, h0, h1, ih]

theorem mem_keys_dedupSet (m : DedupMap) (k : Str × Str × Str) (v : SpecItem)
    (k' : Str × Str × Str)
    (h : k' ∈ (dedupSet m k v).map (fun p => p.1)) :
    k' = k ∨ k' ∈ m.map (fun p => p.1) := by
  induction m with
  | nil =>
    simp [dedupSet] at h
    exact Or.inl h
  | cons hd tl ih =>
    obtain ⟨k0, v0⟩ := hd
    by_cases h0 : k0 = k
    · subst h0
      simp [dedupSet] at h
      rcases h with h | h
      · exact Or.inl h
      · exact Or.inr (by simp [h])
    · simp only [dedupSet, h0, if_false, List.map_cons, List.mem_cons] at h
      rcases h with h | h
      · exact Or.inr (by simp [h])
      · rcases ih h with h1 | h1
        · exact Or.inl h1
        · exact Or.inr (by simp [h1])

theorem keys_nodup_dedupSet (m : DedupMap) (k : Str × Str × Str)
    (v : SpecItem) (h : (m.map (fun p => p.1)).Nodup) :
    ((dedupSet m k v).map (fun p => p.1)).Nodup := by
  induction m with
  | nil => simp [dedupSet]
  | cons hd tl ih =>
    obtain ⟨k0, v0⟩ := hd
    simp only [List.map_cons, List.nodup_cons] at h
    by_cases h0 : k0 = k
    · subst h0
      simp [dedupSet, List.nodup_cons, h.1, h.2]
    · have htl := ih h.2
      simp only [dedupSet, h0, if_false, List.map_cons, List.nodup_cons]
      refine ⟨?_, htl⟩
      intro hmem
      rcases mem_keys_dedupSet tl k v k0 hmem with h1 | h1
      · exact h0 h1
      · exact h.1 h1

theorem pairs_dedupSet (m : DedupMap) (v : SpecItem)
    (h : ∀ p ∈ m, p.1 = specKey p.2) :
    ∀ p ∈ dedupSet m (specKey v) v, p.1 = specKey p.2 := by
  induction m with
  | nil =>
    intro p hp
    simp [dedupSet] at hp
    subst hp
    rfl
  | cons hd tl ih =>
    obtain ⟨k0, v0⟩ := hd
    intro p hp
    by_cases h0 : k0 = specKey v
    · subst h0
      simp [dedupSet] at hp
      rcases hp with hp | hp
      · subst hp; rfl
      · exact h p (by simp [hp])
    · simp [dedupSet, h0] at hp
      rcases hp with hp | hp
      · subst hp; exact h (k0, v0) (by simp)
      · exact ih (fun p hp => h p (by simp [hp])) p hp

theorem dedupGet_mem (m : DedupMap) (k : Str × Str × Str) (v : SpecItem)
    (h : dedupGet m k = some v) : (k, v) ∈ m := by
  induction m with
  | nil => simp [dedupGet] at h
  | cons hd tl ih =>
    obtain ⟨k0, v0⟩ := hd
    by_cases h0 : k0 = k
    · subst h0
      simp [dedupGet] at h
      subst h
      exact List.mem_cons_self _ _
    · simp [dedupGet, h0] at h
      exact List.mem_cons_of_mem _ (ih h)

theorem dedupGet_of_mem (m : DedupMap)
    (h : (m.map (fun p => p.1)).Nodup) :
    ∀ p ∈ m, dedupGet m p.1 = some p.2 := by
  induction m with
  | nil => intro p hp; cases hp
  | cons hd tl ih =>
    obtain ⟨k0, v0⟩ := hd
    simp only [List.map_cons, List.nodup_cons] at h
    intro p hp
    rcases List.mem_cons.mp hp with h1 | h1
    · subst h1
      simp [dedupGet]
    · have hne : k0 ≠ p.1 := by
        intro he
        exact h.1 (he ▸ List.mem_map_of_mem (fun p => p.1) h1)
      simp only [dedupGet, hne, if_false]
      exact ih h.2 p h1

theorem dedupGet_foldl (specs : List SpecItem) :
    ∀ (m : DedupMap) (k : Str × Str × Str),
      dedupGet (specs.foldl (fun m s => dedupSet m (specKey s) s) m) k =
        match specs.reverse.find? (fun t => decide (specKey t = k)) with
        | some t => some t
        | none => dedupGet m k := by
  induction specs with
  | nil => intro m k; simp
  | cons x xs ih =>
    intro m k
    rw [List.foldl_cons, ih, List.reverse_cons, List.find?_append]
    cases hf : xs.reverse.find? (fun t => decide (specKey t = k)) with
    | some t => simp [Option.orElse]
    | none =>
      simp only [Option.orElse, Option.none_orElse]
      rw [dedupGet_dedupSet]
      by_cases hk : k = specKey x
      · subst hk
        simp [List.find?]
      · have : (decide (specKey x = k)) = false :=
          decide_eq_false (fun he => hk he.symm)
        simp [List.find?, this, hk]

theorem keys_nodup_foldl (specs : List SpecItem) :
    ∀ m : DedupMap, (m.map (fun p => p.1)).Nodup →
      ((specs.foldl (fun m s => dedupSet m (specKey s) s) m).map
        (fun p => p.1)).Nodup := by
  induction specs with
  | nil => intro m h; simpa using h
  | cons x xs ih =>
    intro m h
    rw [List.foldl_cons]
    exact ih _ (keys_nodup_dedupSet m (specKey x) x h)

theorem pairs_foldl (specs : List SpecItem) :
    ∀ m : DedupMap, (∀ p ∈ m, p.1 = specKey p.2) →
      ∀ p ∈ specs.foldl (fun m s => dedupSet m (specKey s) s) m,
        p.1 = specKey p.2 := by
  induction specs with
  | nil => intro m h; simpa using h
  | cons x xs ih =>
    intro m h
    rw [List.foldl_cons]
    exact ih _ (pairs_dedupSet m x h)

/-- C4: `answer_query` deduplicates the extracted specs by the
case-insensitive `(component, value, unit)` triple: the returned list has
pairwise distinct keys, each returned entry is the last occurrence of its
key in the extraction result, and every extracted spec is represented by an
entry with its key. -/
theorem answer_query_dedup_by_ci_triple (specs : List SpecItem) :
    ((dedup_specs specs).map specKey).Nodup ∧
    (∀ s ∈ dedup_specs specs,
      specs.reverse.find? (fun t => decide (specKey t = specKey s)) = some s) ∧
    (∀ s ∈ specs, ∃ t ∈ dedup_specs specs, specKey t = specKey s) := by
  have hkeys : ((specs.foldl (fun m s => dedupSet m (specKey s) s) []).map
      (fun p => p.1)).Nodup := keys_nodup_foldl specs [] (by simp)
  have hpairs : ∀ p ∈ specs.foldl (fun m s => dedupSet m (specKey s) s) [],
      p.1 = specKey p.2 := pairs_foldl specs [] (by simp)
  refine ⟨?_, ?_, ?_⟩
  · rw [dedup_specs, List.map_map]
    have : ((specs.foldl (fun m s => dedupSet m (specKey s) s) []).map
        (specKey ∘ fun p => p.2)) =
        ((specs.foldl (fun m s => dedupSet m (specKey s) s) []).map
        (fun p => p.1)) :=
      List.map_congr_left (fun p hp => (hpairs p hp).symm)
    rw [this]
    exact hkeys
  · intro s hs
    rw [dedup_specs] at hs
    obtain ⟨p, hp, hps⟩ := List.mem_map.mp hs
    have h1 : dedupGet (specs.foldl (fun m s => dedupSet m (specKey s) s) [])
        p.1 = some p.2 := dedupGet_of_mem _ hkeys p hp
    have h2 := dedupGet_foldl specs [] p.1
    rw [h1] at h2
    subst hps
    rw [hpairs p hp] at h2
    cases hf : specs.reverse.find?
        (fun t => decide (specKey t = specKey p.2)) with
    | some t =>
      rw [hf] at h2
      exact h2.symm
    | none =>
      rw [hf] at h2
      exact absurd (h2.trans rfl) (Option.some_ne_none p.2)
  · intro s hs
    have hsr : s ∈ specs.reverse := List.mem_reverse.mpr hs
    have hsome : (specs.reverse.find?
        (fun t => decide (specKey t = specKey s))).isSome :=
      List.find?_isSome.mpr ⟨s, hsr, by simp⟩
    obtain ⟨t, ht⟩ := Option.isSome_iff_exists.mp hsome
    have htp : specKey t = specKey s := by
      have := List.find?_some ht
      simpa using this
    have hgett := dedupGet_foldl specs [] (specKey s)
    rw [ht] at hgett
    simp only at hgett
    have hmemM : (specKey s, t) ∈
        specs.foldl (fun m s => dedupSet m (specKey s) s) [] :=
      dedupGet_mem _ _ t hgett
    refine ⟨t, ?_, htp⟩
    rw [dedup_specs]
    exact List.mem_map_of_mem (fun p => p.2) hmemM

theorem answer_query_dedup_by_ci_triple_witness :
    [(⟨"Bolt".data, "35".data, "Nm".data, none, none⟩ : SpecItem),
      ⟨"bolt".data, "35".data, "nm".data, none, none⟩].reverse.find?
        (fun t => decide (specKey t =
          specKey ⟨"bolt".data, "35".data, "nm".data, none, none⟩)) =
      some ⟨"bolt".data, "35".data, "nm".data, none, none⟩ ∧
    dedup_specs [⟨"Bolt".data, "35".data, "Nm".data, none, none⟩,
        ⟨"bolt".data, "35".data, "nm".data, none, none⟩] =
      [⟨"bolt".data, "35".data, "nm".data, none, none⟩] :=
  ⟨(answer_query_dedup_by_ci_triple
      [⟨"Bolt".data, "35".data, "Nm".data, none, none⟩,
       ⟨"bolt".data, "35".data, "nm".data, none, none⟩]).2.1
      ⟨"bolt".data, "35".data, "nm".data, none, none⟩ (by decide),
   by decide⟩

-- ===================== QueryProcessor claims =====================

/-- C9 (counterexample): with an index present and the empty query,
`answer_query` raises nothing: the code has no empty-query precondition
check (that guard lives in the Streamlit UI, outside `answer_query`), so
the empty query flows through the pipeline and is absorbed into a normal
`.ok` result instead of being surfaced as an error. -/
theorem answer_query_empty_query_not_raised_cex :
    answer_query ⟨none, some [], none⟩ (some ()) [] = .ok [] := rfl

/-- C9 (amended): `answer_query` raises the distinguishable
vectorstore-not-initialized condition whenever no index has been built or
loaded, for every query; with an index present it never raises — in
particular an empty query is not rejected but produces a normal (possibly
empty) result list. -/
theorem answer_query_raises_only_for_missing_index
    (env : AnswerEnv) (query : Str) :
    answer_query env none query = .error .vectorstoreNotInitialized ∧
    ∃ specs, answer_query env (some ()) query = .ok specs :=
  ⟨rfl, dedup_specs (extract_specs env.extractResp), rfl⟩
